import Mathlib

/-!
Verification development for the core utilities of a MinIO-style S3 client
(`src/utils.cc`): the case-insensitive header/query `Multimap` with its
SigV4 canonicalization, and the multipart-upload part planner
`CalcPartInfo`.

Machine integers are modelled as `Nat`/`Int`.  `CalcPartInfo` computes its
two ceilings with C `double` arithmetic; over the valid input range
(`object_size ≤ 5 TiB < 2^53`, divisors ≥ 5 MiB or = 10000) the relative
rounding error of the divisions (≤ 2^-53 per operation) is strictly below
the smallest possible nonzero fractional part of the exact quotient, so
`std::ceil` of the `double` quotient equals the exact integer ceiling and
the embedding uses exact ceiling division `cdiv`.
-/

/-- Exact ceiling division on `Nat`: `cdiv a b = ⌈a / b⌉` for `b > 0`
(and `0` when `b = 0`, a case the source never reaches). -/
def cdiv (a b : Nat) : Nat := (a + b - 1) / b

theorem cdiv_le_iff {b : Nat} (hb : 0 < b) (a k : Nat) :
    cdiv a b ≤ k ↔ a ≤ k * b := by
  unfold cdiv
  rw [Nat.div_le_iff_le_mul_add_pred hb, Nat.mul_comm]
  constructor <;> (intro h; generalize hkb : k * b = m at *; omega)

theorem le_cdiv_mul {b : Nat} (hb : 0 < b) (a : Nat) : a ≤ cdiv a b * b :=
  (cdiv_le_iff hb a (cdiv a b)).mp le_rfl

theorem cdiv_le {b : Nat} (hb : 0 < b) {a k : Nat} (h : a ≤ k * b) :
    cdiv a b ≤ k :=
  (cdiv_le_iff hb a k).mpr h

theorem cdiv_pos {a b : Nat} (ha : 0 < a) (hb : 0 < b) : 0 < cdiv a b := by
  unfold cdiv
  rw [Nat.lt_iff_add_one_le, Nat.le_div_iff_mul_le hb]
  omega

theorem cdiv_self {a : Nat} (ha : 0 < a) : cdiv a a = 1 := by
  refine Nat.le_antisymm (cdiv_le ha (by omega)) (cdiv_pos ha ha)

theorem cdiv_eq_zero_iff {b : Nat} (hb : 0 < b) (a : Nat) :
    cdiv a b = 0 ↔ a = 0 := by
  rw [← Nat.le_zero, cdiv_le_iff hb]
  omega

/-- `PartError` names the failure kinds of `CalcPartInfo` (the source
returns `error::Error` values carrying messages; only the kind matters). -/
inductive PartError where
  | PartSizeTooSmall
  | PartSizeTooLarge
  | ObjectTooLarge
  | PartSizeRequired
  | TooManyParts
deriving DecidableEq

/-- Modelled from the spec: `kMinPartSize = 5 MiB`; the constant is
declared in `utils.h`, which is absent from the sources. -/
def kMinPartSize : Nat := 5 * 1024 * 1024

/-- Modelled from the spec: `kMaxPartSize = 5 GiB` (declared in the
absent `utils.h`). -/
def kMaxPartSize : Nat := 5 * 1024 * 1024 * 1024

/-- Modelled from the spec: `kMaxObjectSize = 5 TiB` (declared in the
absent `utils.h`). -/
def kMaxObjectSize : Int := 5 * 1024 * 1024 * 1024 * 1024

/-- Modelled from the spec: `kMaxMultipartCount = 10000` (declared in the
absent `utils.h`). -/
def kMaxMultipartCount : Nat := 10000

/-- `minio::utils::CalcPartInfo` from `src/utils.cc`.  `object_size` is a
C `long` (negative = unknown size), `part_size` a `size_t` in/out
parameter; the result models the final `(part_size, part_count)` pair on
success and the returned `error::Error` kind on failure. -/
def CalcPartInfo (object_size : Int) (part_size : Nat) :
    Except PartError (Nat × Int) :=
  if 0 < part_size ∧ part_size < kMinPartSize then .error .PartSizeTooSmall
  else if 0 < part_size ∧ kMaxPartSize < part_size then .error .PartSizeTooLarge
  else if 0 ≤ object_size ∧ kMaxObjectSize < object_size then .error .ObjectTooLarge
  else if object_size < 0 ∧ part_size = 0 then .error .PartSizeRequired
  else if object_size < 0 then .ok (part_size, -1)
  else
    let n := object_size.toNat
    let psz0 := if part_size = 0
      then cdiv (cdiv n kMaxMultipartCount) kMinPartSize * kMinPartSize
      else part_size
    let psz := if n < psz0 then n else psz0
    let pc := if 0 < psz then cdiv n psz else 1
    if kMaxMultipartCount < pc then .error .TooManyParts
    else .ok (psz, (pc : Int))

/-! ## The header/query Multimap

`minio::utils::Multimap` holds two ordered containers (declared in the
absent `utils.h`; upstream they are `std::map<std::string,
std::set<std::string>>`): `map_` from original-case key to its set of
values, and `keys_` from lower-cased key to the set of original-case
spellings.  Ordered maps/sets are embedded as key-sorted, duplicate-free
association lists / sorted lists, with insertion maintaining that shape
exactly as `std::map::operator[]` / `std::set::insert` do. -/

/-- Byte-wise lexicographic `operator<` of `std::string` on the character
lists (for the ASCII data handled here, code points coincide with bytes). -/
def charsLt : List Char → List Char → Bool
  | _, [] => false
  | [], _ :: _ => true
  | a :: as, b :: bs =>
    if a.toNat < b.toNat then true
    else if b.toNat < a.toNat then false
    else charsLt as bs

/-- `std::string` `operator<`. -/
def strLt (a b : String) : Bool := charsLt a.data b.data

/-- The non-strict order induced by `strLt` (ascending order of
`std::sort` / `std::map`): `a ≤ b ↔ ¬ b < a`. -/
def strLe (a b : String) : Bool := !(strLt b a)

/-- Insert into a `strLe`-sorted list of strings (helper for the model of
`std::sort`). -/
def orderedInsertStr (a : String) : List String → List String
  | [] => [a]
  | b :: l => if strLe a b then a :: b :: l else b :: orderedInsertStr a l

/-- `std::sort` on a vector of strings: modelled as insertion sort
(ascending by `operator<`; the source sorts lists with no duplicates, so
stability is irrelevant). -/
def sortStrings : List String → List String
  | [] => []
  | b :: l => orderedInsertStr b (sortStrings l)

/-- `::tolower` on one byte (C locale): lower-case ASCII letters only. -/
def toLowerChar (c : Char) : Char :=
  if 'A' ≤ c ∧ c ≤ 'Z' then Char.ofNat (c.toNat + 32) else c

/-- `minio::utils::ToLower`: `std::transform` with `::tolower`. -/
def ToLower (s : String) : String := ⟨s.data.map toLowerChar⟩

/-- `std::set<std::string>::insert`: ordered insert, duplicates ignored. -/
def setInsert (v : String) : List String → List String
  | [] => [v]
  | x :: xs =>
    if strLt v x then v :: x :: xs
    else if v = x then x :: xs
    else x :: setInsert v xs

/-- `map_[k].insert(v)` on a `std::map<std::string, std::set<std::string>>`:
creates the entry for `k` if absent, then inserts `v` into its set. -/
def mapInsert (k v : String) : List (String × List String) → List (String × List String)
  | [] => [(k, [v])]
  | (k', vs) :: rest =>
    if strLt k k' then (k, [v]) :: (k', vs) :: rest
    else if k = k' then (k', setInsert v vs) :: rest
    else (k', vs) :: mapInsert k v rest

/-- `std::map::find` (read-only lookup, no insertion). -/
def mapFind {α : Type} (k : String) : List (String × α) → Option α
  | [] => none
  | (k', v) :: rest => if k = k' then some v else mapFind k rest

/-- `std::map<std::string, std::set<std::string>>::operator[]`: returns the
set stored at `k`, default-inserting an **empty** set when `k` is absent;
the updated map is returned alongside. -/
def mapIndex (k : String) : List (String × List String) → List String × List (String × List String)
  | [] => ([], [(k, [])])
  | (k', vs) :: rest =>
    if strLt k k' then ([], (k, []) :: (k', vs) :: rest)
    else if k = k' then (vs, (k', vs) :: rest)
    else
      let r := mapIndex k rest
      (r.1, (k', vs) :: r.2)

/-- `std::map<std::string, std::string>::operator[] = value`:
insert-or-overwrite at `k`. -/
def assocSet (k v : String) : List (String × String) → List (String × String)
  | [] => [(k, v)]
  | (k', v') :: rest =>
    if strLt k k' then (k, v) :: (k', v') :: rest
    else if k = k' then (k', v) :: rest
    else (k', v') :: assocSet k v rest

/-- The two member containers of `minio::utils::Multimap`. -/
structure Multimap where
  map_ : List (String × List String)
  keys_ : List (String × List String)

/-- A fresh `Multimap` (default-constructed: both containers empty). -/
def Multimap.empty : Multimap := ⟨[], []⟩

/-- `Multimap::Add` from `src/utils.cc`. -/
def Multimap.Add (m : Multimap) (key value : String) : Multimap :=
  { map_ := mapInsert key value m.map_
    keys_ := mapInsert (ToLower key) key m.keys_ }

/-- `Multimap::AddAll` from `src/utils.cc`: merge every entry of
`headers` into `m` — for each key, `map_[key]` (`operator[]`, creating
the entry if absent) followed by a range insert of the values. -/
def Multimap.AddAll (m headers : Multimap) : Multimap :=
  headers.map_.foldl
    (fun acc e =>
      { map_ := e.2.foldl (fun mm v => mapInsert e.1 v mm) (mapIndex e.1 acc.map_).2
        keys_ := mapInsert (ToLower e.1) e.1 acc.keys_ })
    m

/-- `Multimap::Contains` from `src/utils.cc`: `keys_.find(ToLower(key))`. -/
def Multimap.Contains (m : Multimap) (key : String) : Bool :=
  (mapFind (ToLower key) m.keys_).isSome

/-- The value-collection loop of `Multimap::Get`: for each recorded
spelling, `map_[key]` (again `operator[]`, so a missing spelling would be
default-inserted) and append its values to the result. -/
def getLoop (mp : List (String × List String)) : List String → List String × List (String × List String)
  | [] => ([], mp)
  | s :: rest =>
    let r := mapIndex s mp
    let r' := getLoop r.2 rest
    (r.1 ++ r'.1, r'.2)

/-- `Multimap::Get` from `src/utils.cc`.  Note `keys_[ToLower(key)]` uses
`operator[]`, so the call also mutates the map; the returned pair is
(result list, multimap after the call). -/
def Multimap.Get (m : Multimap) (key : String) : List String × Multimap :=
  let r1 := mapIndex (ToLower key) m.keys_
  let r2 := getLoop m.map_ r1.1
  (r2.1, ⟨r2.2, r1.2⟩)

/-- `Multimap::GetFront` from `src/utils.cc`. -/
def Multimap.GetFront (m : Multimap) (key : String) : String × Multimap :=
  let r := m.Get key
  (r.1.headD "", r.2)

/-- `Multimap::Keys` from `src/utils.cc`. -/
def Multimap.Keys (m : Multimap) : List String :=
  m.keys_.map Prod.fst

/-- `Multimap::ToHttpHeaders` from `src/utils.cc`. -/
def Multimap.ToHttpHeaders (m : Multimap) : List String :=
  m.map_.foldr (fun e acc => e.2.map (fun v => e.1 ++ ": " ++ v) ++ acc) []

/-- `minio::utils::Join`: concatenate with `delimiter` between elements,
skipping the delimiter while the accumulated result is still empty. -/
def Join (values : List String) (delimiter : String) : String :=
  values.foldl (fun r v => if r = "" then r ++ v else r ++ delimiter ++ v) ""

/-- One step of `std::regex_replace(v, MULTI_SPACE_REGEX, " ")` with
pattern `( +)`: every maximal run of spaces becomes a single space. -/
def collapseChars : List Char → List Char
  | [] => []
  | [c] => [c]
  | c :: c' :: rest =>
    if c = ' ' ∧ c' = ' ' then collapseChars (c' :: rest)
    else c :: collapseChars (c' :: rest)

/-- `std::regex_replace(v, MULTI_SPACE_REGEX, " ")` on a string. -/
def collapseSpaces (s : String) : String := ⟨collapseChars s.data⟩

/-- The per-key value accumulation of `Multimap::GetCanonicalHeaders`:
`value += ","` (only when non-empty so far) then the space-collapsed
value, over the key's value set in order. -/
def joinVals (vs : List String) : String :=
  vs.foldl (fun r v => if r = "" then r ++ collapseSpaces v else r ++ "," ++ collapseSpaces v) ""

/-- One iteration of the first loop of `Multimap::GetCanonicalHeaders`
over an entry of `map_`: skip `authorization`/`user-agent`, record the
lower-cased key in `signed_headerslist` if new, and `map[key] = value`
(an **overwriting** assignment). -/
def canonStep (acc : List String × List (String × String)) (e : String × List String) :
    List String × List (String × String) :=
  let key := ToLower e.1
  if key = "authorization" ∨ key = "user-agent" then acc
  else
    let slist := if key ∈ acc.1 then acc.1 else acc.1 ++ [key]
    (slist, assocSet key (joinVals e.2) acc.2)

/-- `signed_headerslist` and the local `std::map<std::string, std::string>
map` after the first loop of `Multimap::GetCanonicalHeaders`. -/
def canonAccum (m : Multimap) : List String × List (String × String) :=
  m.map_.foldl canonStep ([], [])

/-- The sorted `signed_headerslist` of `Multimap::GetCanonicalHeaders`. -/
def signedList (m : Multimap) : List String :=
  sortStrings (canonAccum m).1

/-- The local canonical `map` of `Multimap::GetCanonicalHeaders`. -/
def canonPairs (m : Multimap) : List (String × String) :=
  (canonAccum m).2

/-- The sorted `canonical_headerslist` of `Multimap::GetCanonicalHeaders`:
the `"key:value"` lines, sorted as whole strings by `std::sort`. -/
def canonLines (m : Multimap) : List String :=
  sortStrings ((canonPairs m).map (fun e => e.1 ++ ":" ++ e.2))

/-- `Multimap::GetCanonicalHeaders` from `src/utils.cc`: the pair
`(signed_headers, canonical_headers)`. -/
def Multimap.GetCanonicalHeaders (m : Multimap) : String × String :=
  (Join (signedList m) ";", Join (canonLines m) "\n")

/-- Key-sorted association list: the shape `std::map` iteration exposes. -/
def MapSorted {α : Type} (l : List (String × α)) : Prop :=
  l.Pairwise (fun p q => strLt p.1 q.1 = true)

/-- Ascending order of a string list, as produced by `std::sort`. -/
def StrSorted (l : List String) : Prop :=
  l.Pairwise (fun p q => strLe p q = true)

/-- Left-biased choice on options (specification helper). -/
def optOr {α : Type} : Option α → Option α → Option α
  | some a, _ => some a
  | none, b => b

/-! ## The lexicographic byte order -/

theorem charsLt_irrefl : ∀ x : List Char, charsLt x x = false
  | [] => rfl
  | a :: as => by simp [charsLt, charsLt_irrefl as]

theorem charsLt_asymm : ∀ x y : List Char, charsLt x y = true → charsLt y x = false
  | _, [] => by simp [charsLt]
  | [], _ :: _ => by intro h; rfl
  | a :: as, b :: bs => by
    intro h
    simp only [charsLt] at h ⊢
    rcases Nat.lt_trichotomy a.toNat b.toNat with hc | hc | hc
    · simp [hc, Nat.lt_asymm hc]
    · simp only [hc, Nat.lt_irrefl, if_false] at h ⊢
      exact charsLt_asymm as bs h
    · simp [hc, Nat.lt_asymm hc] at h

theorem charsLt_trans : ∀ x y z : List Char,
    charsLt x y = true → charsLt y z = true → charsLt x z = true
  | _, y, [] => by simp [charsLt]
  | [], y, c :: cs => by intro _ _; rfl
  | a :: as, [], c :: cs => by simp [charsLt]
  | a :: as, b :: bs, c :: cs => by
    intro hxy hyz
    simp only [charsLt] at hxy hyz ⊢
    rcases Nat.lt_trichotomy a.toNat b.toNat with h1 | h1 | h1
    · rcases Nat.lt_trichotomy b.toNat c.toNat with h2 | h2 | h2
      · simp [Nat.lt_trans h1 h2]
      · simp [h2 ▸ h1]
      · simp [h2, Nat.lt_asymm h2] at hyz
    · rcases Nat.lt_trichotomy b.toNat c.toNat with h2 | h2 | h2
      · simp [h1 ▸ h2]
      · have hac : a.toNat = c.toNat := h1.trans h2
        simp only [h1, Nat.lt_irrefl, if_false] at hxy
        simp only [h2, Nat.lt_irrefl, if_false] at hyz
        simp only [hac, Nat.lt_irrefl, if_false]
        exact charsLt_trans as bs cs hxy hyz
      · simp [h2, Nat.lt_asymm h2] at hyz
    · simp [h1, Nat.lt_asymm h1] at hxy

theorem charsLt_total_eq : ∀ x y : List Char,
    charsLt x y = false → charsLt y x = false → x = y
  | [], [] => by intro _ _; rfl
  | [], _ :: _ => by simp [charsLt]
  | _ :: _, [] => by intro _; simp [charsLt]
  | a :: as, b :: bs => by
    intro h1 h2
    simp only [charsLt] at h1 h2
    rcases Nat.lt_trichotomy a.toNat b.toNat with hc | hc | hc
    · simp [hc] at h1
    · have hab : a = b := Char.eq_of_val_eq (UInt32.eq_of_toBitVec_eq (BitVec.eq_of_toNat_eq hc))
      simp only [hc, Nat.lt_irrefl, if_false] at h1 h2
      rw [hab, charsLt_total_eq as bs h1 h2]
    · simp [hc, Nat.lt_asymm hc] at h2

theorem strLt_irrefl (a : String) : strLt a a = false := charsLt_irrefl a.data

theorem strLt_asymm {a b : String} (h : strLt a b = true) : strLt b a = false :=
  charsLt_asymm a.data b.data h

theorem strLt_trans {a b c : String} (h1 : strLt a b = true) (h2 : strLt b c = true) :
    strLt a c = true :=
  charsLt_trans a.data b.data c.data h1 h2

theorem strLt_total_eq {a b : String} (h1 : strLt a b = false) (h2 : strLt b a = false) :
    a = b := by
  cases a; cases b
  exact congrArg String.mk (charsLt_total_eq _ _ h1 h2)

theorem strLt_ne {a b : String} (h : strLt a b = true) : a ≠ b := by
  intro he; rw [he, strLt_irrefl] at h; exact Bool.false_ne_true h

theorem strLe_of_not_lt {a b : String} (h : strLt b a = false) : strLe a b = true := by
  simp [strLe, h]

theorem not_lt_of_strLe {a b : String} (h : strLe a b = true) : strLt b a = false := by
  simpa [strLe] using h

theorem strLe_of_lt {a b : String} (h : strLt a b = true) : strLe a b = true :=
  strLe_of_not_lt (strLt_asymm h)

theorem strLe_total (a b : String) : strLe a b = true ∨ strLe b a = true := by
  cases hab : strLt b a
  · exact Or.inl (strLe_of_not_lt hab)
  · exact Or.inr (strLe_of_lt hab)

theorem strLe_trans {a b c : String} (h1 : strLe a b = true) (h2 : strLe b c = true) :
    strLe a c = true := by
  have hba := not_lt_of_strLe h1
  have hcb := not_lt_of_strLe h2
  apply strLe_of_not_lt
  cases hca : strLt c a
  · rfl
  · exfalso
    cases hab : strLt a b
    · rw [strLt_total_eq hab hba] at hca
      exact Bool.false_ne_true (hcb ▸ hca)
    · have := strLt_trans hca hab
      exact Bool.false_ne_true (hcb ▸ this)

/-! ## Sortedness of `sortStrings` -/

theorem mem_orderedInsertStr {x a : String} : ∀ {l : List String},
    x ∈ orderedInsertStr a l ↔ x = a ∨ x ∈ l
  | [] => by simp [orderedInsertStr]
  | b :: l => by
    simp only [orderedInsertStr]
    split
    · simp [List.mem_cons]
    · simp only [List.mem_cons, mem_orderedInsertStr (l := l)]
      tauto

theorem mem_sortStrings {x : String} : ∀ {l : List String}, x ∈ sortStrings l ↔ x ∈ l
  | [] => Iff.rfl
  | b :: l => by
    simp only [sortStrings, mem_orderedInsertStr, List.mem_cons,
      mem_sortStrings (l := l)]

theorem sorted_orderedInsertStr (a : String) : ∀ {l : List String},
    StrSorted l → StrSorted (orderedInsertStr a l)
  | [] => by intro _; simp [orderedInsertStr, StrSorted]
  | b :: l => by
    intro h
    simp only [StrSorted, List.pairwise_cons] at h ⊢
    simp only [orderedInsertStr]
    split
    · rename_i hab
      refine List.Pairwise.cons ?_ (List.Pairwise.cons h.1 h.2)
      intro y hy
      rcases List.mem_cons.mp hy with rfl | hy
      · exact hab
      · exact strLe_trans hab (h.1 y hy)
    · rename_i hab
      have hba : strLe b a = true := by
        rcases strLe_total a b with ht | ht
        · exact absurd ht hab
        · exact ht
      refine List.Pairwise.cons ?_ (sorted_orderedInsertStr a h.2)
      intro y hy
      rcases mem_orderedInsertStr.mp hy with rfl | hy
      · exact hba
      · exact h.1 y hy

theorem sorted_sortStrings : ∀ l : List String, StrSorted (sortStrings l)
  | [] => List.Pairwise.nil
  | b :: l => sorted_orderedInsertStr b (sorted_sortStrings l)

theorem strLt_of_not_lt_of_ne {k k' : String} (h1 : strLt k k' = false) (hne : k ≠ k') :
    strLt k' k = true := by
  cases h : strLt k' k
  · exact absurd (strLt_total_eq h1 h) hne
  · rfl

/-! ## Association-list lemmas for the modelled `std::map` operations -/

theorem mapFind_eq_none {α : Type} {x : String} : ∀ {l : List (String × α)},
    (∀ e ∈ l, x ≠ e.1) → mapFind x l = none
  | [] => fun _ => rfl
  | e :: rest => by
    intro h
    simp only [mapFind]
    rw [if_neg (h e (List.mem_cons_self e rest))]
    exact mapFind_eq_none (fun e' he' => h e' (List.mem_cons_of_mem e he'))

theorem mem_assocSet {k v : String} : ∀ {l : List (String × String)},
    ∀ e ∈ assocSet k v l, e.1 = k ∨ e ∈ l
  | [] => by simp [assocSet]
  | (k', v') :: rest => by
    intro e he
    simp only [assocSet] at he
    split at he
    · rcases List.mem_cons.mp he with rfl | he
      · exact Or.inl rfl
      · exact Or.inr he
    · split at he
      · rcases List.mem_cons.mp he with rfl | he
        · rename_i heq
          exact Or.inl heq.symm
        · exact Or.inr (List.mem_cons_of_mem _ he)
      · rcases List.mem_cons.mp he with rfl | he
        · exact Or.inr (List.mem_cons_self _ _)
        · rcases mem_assocSet e he with h | h
          · exact Or.inl h
          · exact Or.inr (List.mem_cons_of_mem _ h)

theorem mapSorted_assocSet {k v : String} : ∀ {l : List (String × String)},
    MapSorted l → MapSorted (assocSet k v l)
  | [] => by intro _; simp [assocSet, MapSorted]
  | (k', v') :: rest => by
    intro h
    simp only [MapSorted, List.pairwise_cons] at h
    simp only [assocSet]
    split
    · rename_i hlt
      refine List.Pairwise.cons ?_ (List.Pairwise.cons h.1 h.2)
      intro e he
      rcases List.mem_cons.mp he with rfl | he
      · exact hlt
      · exact strLt_trans hlt (h.1 e he)
    · split
      · rename_i heq
        subst heq
        exact List.Pairwise.cons h.1 h.2
      · rename_i hlt hne
        have hgt : strLt k' k = true :=
          strLt_of_not_lt_of_ne (Bool.of_not_eq_true hlt) hne
        refine List.Pairwise.cons ?_ (mapSorted_assocSet h.2)
        intro e he
        rcases mem_assocSet e he with h1 | h1
        · rw [h1]; exact hgt
        · exact h.1 e h1

theorem mapFind_assocSet_self (k v : String) : ∀ l : List (String × String),
    mapFind k (assocSet k v l) = some v
  | [] => by simp [assocSet, mapFind]
  | (k', v') :: rest => by
    simp only [assocSet]
    split
    · simp [mapFind]
    · split
      · rename_i heq
        simp [mapFind, heq]
      · rename_i hlt hne
        simp only [mapFind]
        rw [if_neg hne]
        exact mapFind_assocSet_self k v rest

theorem mapFind_assocSet_ne {x k : String} (hne : x ≠ k) (v : String) :
    ∀ l : List (String × String), mapFind x (assocSet k v l) = mapFind x l
  | [] => by simp [assocSet, mapFind, hne]
  | (k', v') :: rest => by
    simp only [assocSet]
    split
    · simp [mapFind, hne]
    · split
      · rename_i heq
        subst heq
        simp [mapFind, hne]
      · simp only [mapFind]
        rw [mapFind_assocSet_ne hne v rest]

theorem mapFind_eq_none_of_lt {α : Type} {k k' : String} {rest : List (String × α)}
    (hlt : strLt k k' = true) (hall : ∀ e ∈ rest, strLt k' e.1 = true) :
    mapFind k rest = none := by
  apply mapFind_eq_none
  intro e he heq
  exact absurd heq (strLt_ne (strLt_trans hlt (hall e he)))

theorem mapIndex_fst {k : String} : ∀ {l : List (String × List String)},
    MapSorted l → (mapIndex k l).1 = (mapFind k l).getD []
  | [] => by intro _; rfl
  | (k', vs) :: rest => by
    intro h
    simp only [MapSorted, List.pairwise_cons] at h
    simp only [mapIndex, mapFind]
    split
    · rename_i hlt
      rw [if_neg (strLt_ne hlt), mapFind_eq_none_of_lt hlt h.1]
      rfl
    · split
      · rfl
      · exact mapIndex_fst h.2

theorem mem_mapIndex {k : String} : ∀ {l : List (String × List String)},
    ∀ e ∈ (mapIndex k l).2, e.1 = k ∨ e ∈ l
  | [] => by simp [mapIndex]
  | (k', vs) :: rest => by
    intro e he
    simp only [mapIndex] at he
    split at he
    · rcases List.mem_cons.mp he with rfl | he
      · exact Or.inl rfl
      · exact Or.inr he
    · split at he
      · exact Or.inr he
      · rcases List.mem_cons.mp he with rfl | he
        · exact Or.inr (List.mem_cons_self _ _)
        · rcases mem_mapIndex e he with h1 | h1
          · exact Or.inl h1
          · exact Or.inr (List.mem_cons_of_mem _ h1)

theorem mapIndex_snd {k : String} : ∀ {l : List (String × List String)},
    MapSorted l → MapSorted (mapIndex k l).2 ∧
      ∀ x, (mapFind x (mapIndex k l).2).getD [] = (mapFind x l).getD []
  | [] => by
    intro _
    refine ⟨by simp [mapIndex, MapSorted], ?_⟩
    intro x
    simp only [mapIndex, mapFind]
    split <;> rfl
  | (k', vs) :: rest => by
    intro h
    simp only [MapSorted, List.pairwise_cons] at h
    simp only [mapIndex]
    split
    · rename_i hlt
      constructor
      · refine List.Pairwise.cons ?_ (List.Pairwise.cons h.1 h.2)
        intro e he
        rcases List.mem_cons.mp he with rfl | he
        · exact hlt
        · exact strLt_trans hlt (h.1 e he)
      · intro x
        simp only [mapFind]
        split
        · rename_i heq
          rw [heq, if_neg (strLt_ne hlt), mapFind_eq_none_of_lt hlt h.1]
          rfl
        · rfl
    · split
      · exact ⟨List.Pairwise.cons h.1 h.2, fun _ => rfl⟩
      · rename_i hlt hne
        have ih := mapIndex_snd (k := k) h.2
        constructor
        · refine List.Pairwise.cons ?_ ih.1
          intro e he
          rcases mem_mapIndex e he with h1 | h1
          · rw [h1]
            exact strLt_of_not_lt_of_ne (Bool.of_not_eq_true hlt) hne
          · exact h.1 e h1
        · intro x
          simp only [mapFind]
          split
          · rfl
          · exact ih.2 x

theorem getLoop_spec : ∀ (ss : List String) (mp : List (String × List String)),
    MapSorted mp →
    (getLoop mp ss).1 = ss.flatMap (fun s => (mapFind s mp).getD []) ∧
      ∀ x, (mapFind x (getLoop mp ss).2).getD [] = (mapFind x mp).getD []
  | [], mp => by intro _; exact ⟨rfl, fun _ => rfl⟩
  | s :: rest, mp => by
    intro h
    have hidx := mapIndex_snd (k := s) h
    have ih := getLoop_spec rest (mapIndex s mp).2 hidx.1
    constructor
    · show (mapIndex s mp).1 ++ (getLoop (mapIndex s mp).2 rest).1 = _
      rw [mapIndex_fst h, ih.1, List.flatMap_cons]
      congr 1
      have : (fun s' => (mapFind s' (mapIndex s mp).2).getD []) =
          (fun s' => (mapFind s' mp).getD []) := funext hidx.2
      rw [this]
    · intro x
      show (mapFind x (getLoop (mapIndex s mp).2 rest).2).getD [] = _
      rw [ih.2 x, hidx.2 x]

theorem optOr_none {α : Type} : ∀ o : Option α, optOr o none = o
  | some _ => rfl
  | none => rfl

/-! ## The first loop of `GetCanonicalHeaders` -/

theorem canon_fold_find {k : String} (hk1 : k ≠ "authorization") (hk2 : k ≠ "user-agent")
    (l : List (String × List String)) (acc : List String × List (String × String)) :
    mapFind k (l.foldl canonStep acc).2 =
      optOr (((l.filter (fun e => ToLower e.1 == k)).getLast?).map (fun e => joinVals e.2))
        (mapFind k acc.2) := by
  induction l using List.reverseRecOn with
  | nil => rfl
  | append_singleton l e ih =>
    rw [List.foldl_append, List.foldl_cons, List.foldl_nil, List.filter_append]
    by_cases hp : (ToLower e.1 == k) = true
    · have heq : ToLower e.1 = k := by simpa using hp
      have hnotskip : ¬(ToLower e.1 = "authorization" ∨ ToLower e.1 = "user-agent") := by
        rw [heq]; rintro (h | h) <;> [exact hk1 h; exact hk2 h]
      simp only [canonStep, if_neg hnotskip]
      rw [heq, mapFind_assocSet_self]
      have : List.filter (fun e => ToLower e.1 == k) [e] = [e] := by
        simp [List.filter, hp]
      rw [this, List.getLast?_concat]
      rfl
    · have : List.filter (fun e => ToLower e.1 == k) [e] = [] := by
        simp only [List.filter_cons, List.filter_nil]
        rw [if_neg hp]
      rw [this, List.append_nil]
      have hne : ToLower e.1 ≠ k := by simpa using hp
      simp only [canonStep]
      split
      · exact ih
      · rw [mapFind_assocSet_ne (fun h => hne h.symm)]
        exact ih

theorem canonPairs_find (m : Multimap) (k : String)
    (hk1 : k ≠ "authorization") (hk2 : k ≠ "user-agent") :
    mapFind k (canonPairs m) =
      ((m.map_.filter (fun e => ToLower e.1 == k)).getLast?).map (fun e => joinVals e.2) := by
  rw [canonPairs, canonAccum, canon_fold_find hk1 hk2]
  exact optOr_none _

theorem canon_fold_sorted : ∀ (l : List (String × List String))
    (acc : List String × List (String × String)),
    MapSorted acc.2 → MapSorted (l.foldl canonStep acc).2
  | [], _ => id
  | e :: rest, acc => by
    intro h
    rw [List.foldl_cons]
    apply canon_fold_sorted rest
    simp only [canonStep]
    split
    · exact h
    · exact mapSorted_assocSet h

theorem canonPairs_sorted (m : Multimap) : MapSorted (canonPairs m) :=
  canon_fold_sorted m.map_ ([], []) List.Pairwise.nil

theorem canon_fold_excl : ∀ (l : List (String × List String))
    (acc : List String × List (String × String)),
    ("authorization" ∉ acc.1 ∧ "user-agent" ∉ acc.1) →
    (∀ e ∈ acc.2, e.1 ≠ "authorization" ∧ e.1 ≠ "user-agent") →
    (("authorization" ∉ (l.foldl canonStep acc).1 ∧ "user-agent" ∉ (l.foldl canonStep acc).1) ∧
      ∀ e ∈ (l.foldl canonStep acc).2, e.1 ≠ "authorization" ∧ e.1 ≠ "user-agent")
  | [], acc => fun h1 h2 => ⟨h1, h2⟩
  | e :: rest, acc => by
    intro h1 h2
    rw [List.foldl_cons]
    apply canon_fold_excl rest
    · simp only [canonStep]
      split
      · exact h1
      · rename_i hnotskip
        have hkey : ToLower e.1 ≠ "authorization" ∧ ToLower e.1 ≠ "user-agent" := by
          constructor <;> (intro hx; exact hnotskip (by simp [hx]))
        constructor
        · show "authorization" ∉ (if ToLower e.1 ∈ acc.1 then acc.1 else acc.1 ++ [ToLower e.1])
          split
          · exact h1.1
          · intro hmem
            rcases List.mem_append.mp hmem with hm | hm
            · exact h1.1 hm
            · exact hkey.1 (List.mem_singleton.mp hm).symm
        · show "user-agent" ∉ (if ToLower e.1 ∈ acc.1 then acc.1 else acc.1 ++ [ToLower e.1])
          split
          · exact h1.2
          · intro hmem
            rcases List.mem_append.mp hmem with hm | hm
            · exact h1.2 hm
            · exact hkey.2 (List.mem_singleton.mp hm).symm
    · simp only [canonStep]
      split
      · exact h2
      · rename_i hnotskip
        have hkey : ToLower e.1 ≠ "authorization" ∧ ToLower e.1 ≠ "user-agent" := by
          constructor <;> (intro hx; exact hnotskip (by simp [hx]))
        intro e' he'
        rcases mem_assocSet e' he' with hx | hx
        · rw [hx]; exact hkey
        · exact h2 e' hx

/-! ## Claim C1 -/

/-- **C1, counterexample.**  With values `"a"` added under `"HOST"` and
`"b"` under `"Host"`, the canonical value for the lower-cased key `"host"`
is just `"b"`: it is not the comma-join of the deduplicated set of all
values added under any spelling of the key (`"a,b"` or `"b,a"`), because
the assignment `map[key] = value` overwrites the value built for an
earlier spelling. -/
theorem C1_counterexample :
    mapFind "host" (canonPairs ((Multimap.empty.Add "HOST" "a").Add "Host" "b")) = some "b" ∧
    ("b" : String) ≠ "a,b" ∧ ("b" : String) ≠ "b,a" :=
  ⟨by decide, by decide, by decide⟩

/-- **C1, amended.**  For every retained lower-cased key `k`, the
canonical map holds the comma-joined, space-collapsed values of only the
**last** entry of `map_` (in iteration order, i.e. the byte-wise greatest
original-case spelling) whose lower-casing is `k`; values added solely
under earlier spellings are dropped.  Runs of spaces inside a value still
collapse to a single space (e.g. `"a   b"` to `"a b"`), as `joinVals`
applies `collapseSpaces` to every value. -/
theorem C1_canonical_value_is_last_spelling (m : Multimap) (k : String)
    (hk1 : k ≠ "authorization") (hk2 : k ≠ "user-agent") :
    mapFind k (canonPairs m) =
      ((m.map_.filter (fun e => ToLower e.1 == k)).getLast?).map (fun e => joinVals e.2) ∧
    collapseSpaces "a   b" = "a b" :=
  ⟨canonPairs_find m k hk1 hk2, rfl⟩

/-- Witness for C1 at the counterexample's multimap and key `"host"`. -/
theorem C1_witness :
    mapFind "host" (canonPairs ((Multimap.empty.Add "HOST" "a").Add "Host" "b")) =
      ((((Multimap.empty.Add "HOST" "a").Add "Host" "b").map_.filter
        (fun e => ToLower e.1 == "host")).getLast?).map (fun e => joinVals e.2) :=
  (C1_canonical_value_is_last_spelling ((Multimap.empty.Add "HOST" "a").Add "Host" "b")
    "host" (by decide) (by decide)).1

/-! ## Claim C2 -/

/-- **C2, counterexample.**  With keys `"Content"` and `"Content-Type"`,
the canonical lines come out as `["content-type:w", "content:v"]` because
`std::sort` orders the whole `"key:value"` strings and `'-' < ':'`; the
ascending order of the lower-cased keys themselves (the order of
`signed_headers`, shown in the second conjunct) would put `"content:v"`
first. -/
theorem C2_counterexample :
    canonLines ((Multimap.empty.Add "Content" "v").Add "Content-Type" "w") =
      ["content-type:w", "content:v"] ∧
    signedList ((Multimap.empty.Add "Content" "v").Add "Content-Type" "w") =
      ["content", "content-type"] ∧
    (["content-type:w", "content:v"] : List String) ≠ ["content:v", "content-type:w"] :=
  ⟨by decide, by decide, by decide⟩

/-- **C2, amended.**  The canonical lines are sorted ascending byte-wise
as whole `"key:value"` strings (which coincides with key order only when
no retained key is a proper prefix of another whose next byte is below
`':'`); there is one line per distinct lower-cased key (the canonical map
is strictly key-sorted), and `canonical_headers` joins the lines with a
single `"\n"` and no trailing newline. -/
theorem C2_lines_sorted_as_strings (m : Multimap) :
    StrSorted (canonLines m) ∧ MapSorted (canonPairs m) ∧
    (m.GetCanonicalHeaders).2 = Join (canonLines m) "\n" :=
  ⟨sorted_sortStrings _, canonPairs_sorted m, rfl⟩

/-! ## Claim C3 -/

/-- **C3, counterexample.**  After adding value `"v"` under both `"Host"`
and `"HOST"`, `Get("host")` returns `["v", "v"]`: the same value appears
twice (once per spelling), so the returned list is not duplicate-free. -/
theorem C3_counterexample :
    (((Multimap.empty.Add "Host" "v").Add "HOST" "v").Get "host").1 = ["v", "v"] ∧
    ¬ (((Multimap.empty.Add "Host" "v").Add "HOST" "v").Get "host").1.Nodup :=
  ⟨by decide, by decide⟩

/-- **C3, amended.**  `Get(k)` returns the concatenation, over the
recorded spellings of `ToLower k` (in ascending byte order), of each
spelling's deduplicated value set; as a set this is exactly the union of
all values added under any spelling of the key, but a value stored under
`n` distinct spellings appears `n` times in the list, not once. -/
theorem C3_get_concatenates_spellings (m : Multimap) (k : String)
    (h1 : MapSorted m.map_) (h2 : MapSorted m.keys_) :
    (m.Get k).1 = ((mapFind (ToLower k) m.keys_).getD []).flatMap
        (fun s => (mapFind s m.map_).getD []) ∧
    ∀ v, v ∈ (m.Get k).1 ↔
      ∃ s ∈ (mapFind (ToLower k) m.keys_).getD [], v ∈ (mapFind s m.map_).getD [] := by
  have hmain : (m.Get k).1 = ((mapFind (ToLower k) m.keys_).getD []).flatMap
      (fun s => (mapFind s m.map_).getD []) := by
    show (getLoop m.map_ (mapIndex (ToLower k) m.keys_).1).1 = _
    rw [(getLoop_spec (mapIndex (ToLower k) m.keys_).1 m.map_ h1).1, mapIndex_fst h2]
  refine ⟨hmain, ?_⟩
  intro v
  rw [hmain]
  exact List.mem_flatMap

/-- Witness for C3 on a concrete two-spelling multimap. -/
theorem C3_witness :
    ((((Multimap.empty.Add "Host" "v").Add "HOST" "w").Get "host").1 =
      ((mapFind (ToLower "host") ((Multimap.empty.Add "Host" "v").Add "HOST" "w").keys_).getD
        []).flatMap
        (fun s => (mapFind s ((Multimap.empty.Add "Host" "v").Add "HOST" "w").map_).getD [])) :=
  (C3_get_concatenates_spellings ((Multimap.empty.Add "Host" "v").Add "HOST" "w")
    "host" (by unfold MapSorted; decide) (by unfold MapSorted; decide)).1

/-! ## Claim C4 -/

/-- **C4.**  The failing input: `Get("x")` on an empty multimap (a key
that was never added).  Because `Get` reads `keys_` with `operator[]`,
the call default-inserts `"x" ↦ {}` into `keys_`: afterwards `keys_` has
an entry with an **empty** spelling set and no corresponding `map_`
entry (the stated invariant is broken), and `Contains("x")` flips from
`false` to `true` even though nothing was added. -/
theorem C4_get_mutates_key_index :
    ((Multimap.empty.Get "x").2).keys_ = [("x", [])] ∧
    ((Multimap.empty.Get "x").2).Contains "x" = true ∧
    Multimap.empty.Contains "x" = false ∧
    mapFind "x" ((Multimap.empty.Get "x").2).map_ = none :=
  ⟨by decide, by decide, by decide, by decide⟩

/-! ## Claim C8 -/

/-- **C8.**  `GetCanonicalHeaders` excludes `authorization` and
`user-agent` (whatever the casing of the added keys, since the test is on
the lower-cased key) from both outputs: neither appears among the signed
header names, and no canonical-map entry — hence no `"key:value"` line —
is produced for either. -/
theorem C8_excludes_authorization_user_agent (m : Multimap) :
    ("authorization" ∉ signedList m ∧ "user-agent" ∉ signedList m) ∧
    ∀ e ∈ canonPairs m, e.1 ≠ "authorization" ∧ e.1 ≠ "user-agent" := by
  have h := canon_fold_excl m.map_ ([], [])
    ⟨List.not_mem_nil _, List.not_mem_nil _⟩ (by intro e he; cases he)
  refine ⟨⟨?_, ?_⟩, h.2⟩
  · intro hm; exact h.1.1 (mem_sortStrings.mp hm)
  · intro hm; exact h.1.2 (mem_sortStrings.mp hm)

/-! ## Claim C9 -/

/-- **C9.**  Lookups are case-insensitive: for any two keys with the same
lower-casing (in particular, keys differing only in letter case),
`Contains` answers identically and `Get` returns the identical list (and
the identical updated multimap), in every multimap state. -/
theorem C9_case_insensitive_lookup (m : Multimap) (k1 k2 : String)
    (h : ToLower k1 = ToLower k2) :
    m.Contains k1 = m.Contains k2 ∧ m.Get k1 = m.Get k2 := by
  unfold Multimap.Contains Multimap.Get
  rw [h]
  exact ⟨rfl, rfl⟩

/-- Witness for C9 with `"HOST"` and `"host"` on a one-entry multimap. -/
theorem C9_witness :
    (Multimap.empty.Add "Host" "v").Contains "HOST" =
      (Multimap.empty.Add "Host" "v").Contains "host" ∧
    (Multimap.empty.Add "Host" "v").Get "HOST" =
      (Multimap.empty.Add "Host" "v").Get "host" :=
  C9_case_insensitive_lookup (Multimap.empty.Add "Host" "v") "HOST" "host" (by decide)

/-! ## Arithmetic facts for `CalcPartInfo` -/

theorem kMinPartSize_pos : 0 < kMinPartSize := by decide

theorem kMaxMultipartCount_pos : 0 < kMaxMultipartCount := by decide

/-- If the part size is at least `⌈n / kMaxMultipartCount⌉`, then at most
`kMaxMultipartCount` parts are needed. -/
theorem cdiv_le_max_of_ge {n b : Nat} (hb : 0 < b) (h : cdiv n kMaxMultipartCount ≤ b) :
    cdiv n b ≤ kMaxMultipartCount := by
  apply cdiv_le hb
  calc n ≤ cdiv n kMaxMultipartCount * kMaxMultipartCount :=
        le_cdiv_mul kMaxMultipartCount_pos n
    _ ≤ b * kMaxMultipartCount := Nat.mul_le_mul_right _ h
    _ = kMaxMultipartCount * b := Nat.mul_comm _ _

/-- The planner-chosen part size is at least `⌈n / kMaxMultipartCount⌉`. -/
theorem candidate_ge (n : Nat) :
    cdiv n kMaxMultipartCount ≤
      cdiv (cdiv n kMaxMultipartCount) kMinPartSize * kMinPartSize :=
  le_cdiv_mul kMinPartSize_pos _

/-- Tail of `CalcPartInfo` for a known object size: from a successful
result of the clamp/count/limit phase, the returned plan covers the
object exactly. -/
theorem plan_tail (n psz : Nat) (p : Nat) (pc : Int)
    (hle : psz ≤ n) (hzero : psz = 0 → n = 0)
    (h : (if kMaxMultipartCount < (if 0 < psz then cdiv n psz else 1)
          then (.error .TooManyParts : Except PartError (Nat × Int))
          else .ok (psz, ((if 0 < psz then cdiv n psz else 1 : Nat) : Int))) = .ok (p, pc)) :
    1 ≤ pc ∧ pc ≤ (kMaxMultipartCount : Int) ∧
    (0 < p → (p : Int) ≤ (n : Int) ∧ (p : Int) * (pc - 1) < (n : Int) ∧
      (n : Int) ≤ (p : Int) * pc) ∧
    (p = 0 → (n : Int) = 0 ∧ pc = 1) := by
  by_cases hpos : 0 < psz
  · rw [if_pos hpos] at h
    by_cases hg : kMaxMultipartCount < cdiv n psz
    · rw [if_pos hg] at h
      exact Except.noConfusion h
    · rw [if_neg hg] at h
      rw [not_lt] at hg
      injection h with h1
      injection h1 with hp hpc
      have hn : 0 < n := Nat.lt_of_lt_of_le hpos hle
      have hone : 1 ≤ cdiv n psz := cdiv_pos hn hpos
      refine ⟨?_, ?_, ?_, ?_⟩
      · rw [← hpc]; exact_mod_cast hone
      · rw [← hpc]; exact_mod_cast hg
      · intro _
        refine ⟨?_, ?_, ?_⟩
        · rw [← hp]; exact_mod_cast hle
        · have hlt : (cdiv n psz - 1) * psz < n := by
            by_contra hcon
            rw [not_lt] at hcon
            have := cdiv_le hpos hcon
            omega
          rw [← hp, ← hpc]
          have hcast : ((cdiv n psz : Nat) : Int) - 1 = ((cdiv n psz - 1 : Nat) : Int) := by
            omega
          rw [hcast]
          calc (psz : Int) * ((cdiv n psz - 1 : Nat) : Int)
              = (((cdiv n psz - 1) * psz : Nat) : Int) := by push_cast; ring
            _ < (n : Int) := by exact_mod_cast hlt
        · rw [← hp, ← hpc]
          calc (n : Int) ≤ ((cdiv n psz * psz : Nat) : Int) := by
                exact_mod_cast le_cdiv_mul hpos n
            _ = (psz : Int) * ((cdiv n psz : Nat) : Int) := by push_cast; ring
      · intro hp0
        rw [← hp] at hp0
        exact absurd hp0 (Nat.pos_iff_ne_zero.mp hpos)
  · rw [if_neg hpos] at h
    have hpsz0 : psz = 0 := Nat.eq_zero_of_not_pos hpos
    by_cases hg : kMaxMultipartCount < 1
    · rw [if_pos hg] at h
      exact Except.noConfusion h
    · rw [if_neg hg] at h
      injection h with h1
      injection h1 with hp hpc
      have hn0 : n = 0 := hzero hpsz0
      refine ⟨by omega, ?_, ?_, ?_⟩
      · rw [← hpc]
        decide
      · intro hppos
        rw [← hp] at hppos
        exact absurd hppos hpos
      · intro _
        constructor
        · exact_mod_cast congrArg (Nat.cast : Nat → Int) hn0
        · omega

/-! ## Claim C5 -/

/-- **C5.**  For a known `object_size` within the 5 TiB limit and caller
part size 0, `CalcPartInfo` succeeds with
`part_size = min(object_size, ⌈⌈object_size / kMaxMultipartCount⌉ /
kMinPartSize⌉ * kMinPartSize)` and
`part_count = ⌈object_size / part_size⌉` when `part_size > 0`, else `1`
(so `object_size = 0` gives `(0, 1)`); the `TooManyParts` rejection is
never reached in this branch. -/
theorem C5_planner_chosen_part_size (os : Int) (h0 : 0 ≤ os) (h1 : os ≤ kMaxObjectSize) :
    CalcPartInfo os 0 = .ok
      (min os.toNat (cdiv (cdiv os.toNat kMaxMultipartCount) kMinPartSize * kMinPartSize),
       ((if 0 < min os.toNat (cdiv (cdiv os.toNat kMaxMultipartCount) kMinPartSize * kMinPartSize)
         then cdiv os.toNat (min os.toNat
           (cdiv (cdiv os.toNat kMaxMultipartCount) kMinPartSize * kMinPartSize))
         else 1 : Nat) : Int)) := by
  have hg3 : ¬(0 ≤ os ∧ kMaxObjectSize < os) := fun hc => absurd hc.2 (not_lt.mpr h1)
  have hg4 : ¬(os < 0 ∧ (0 : Nat) = 0) := fun hc => absurd hc.1 (not_lt.mpr h0)
  have hg5 : ¬(os < 0) := not_lt.mpr h0
  unfold CalcPartInfo
  rw [if_neg (by simp), if_neg (by simp), if_neg hg3, if_neg hg4, if_neg hg5]
  dsimp only
  rw [if_pos (rfl : (0 : Nat) = 0)]
  have hmin : (if os.toNat < cdiv (cdiv os.toNat kMaxMultipartCount) kMinPartSize * kMinPartSize
      then os.toNat
      else cdiv (cdiv os.toNat kMaxMultipartCount) kMinPartSize * kMinPartSize) =
      min os.toNat (cdiv (cdiv os.toNat kMaxMultipartCount) kMinPartSize * kMinPartSize) := by
    rcases Nat.lt_or_ge os.toNat
        (cdiv (cdiv os.toNat kMaxMultipartCount) kMinPartSize * kMinPartSize) with hc | hc
    · rw [if_pos hc, Nat.min_eq_left hc.le]
    · rw [if_neg (Nat.not_lt.mpr hc), Nat.min_eq_right hc]
  rw [hmin]
  have hguard : ¬(kMaxMultipartCount <
      (if 0 < min os.toNat (cdiv (cdiv os.toNat kMaxMultipartCount) kMinPartSize * kMinPartSize)
       then cdiv os.toNat
         (min os.toNat (cdiv (cdiv os.toNat kMaxMultipartCount) kMinPartSize * kMinPartSize))
       else 1)) := by
    rw [not_lt]
    split
    · rename_i hpos
      rcases Nat.lt_or_ge os.toNat
          (cdiv (cdiv os.toNat kMaxMultipartCount) kMinPartSize * kMinPartSize) with hc | hc
      · rw [Nat.min_eq_left hc.le] at hpos ⊢
        rw [cdiv_self hpos]
        exact kMaxMultipartCount_pos
      · rw [Nat.min_eq_right hc] at hpos ⊢
        exact cdiv_le_max_of_ge hpos (candidate_ge os.toNat)
    · exact kMaxMultipartCount_pos
  rw [if_neg hguard]

/-- Witness for C5 with a 1 GiB object: part size 5 MiB, 205 parts. -/
theorem C5_witness : CalcPartInfo 1073741824 0 = .ok (5242880, 205) :=
  C5_planner_chosen_part_size 1073741824 (by decide) (by decide)

/-! ## Claim C6 -/

/-- **C6.**  Unknown object size (negative sentinel): a zero caller part
size is rejected with `PartSizeRequired`; a caller part size within
`[kMinPartSize, kMaxPartSize]` succeeds with `part_count = -1` and the
part size returned unchanged. -/
theorem C6_unknown_object_size (os : Int) (ps : Nat) (hos : os < 0) :
    (ps = 0 → CalcPartInfo os ps = .error .PartSizeRequired) ∧
    (kMinPartSize ≤ ps → ps ≤ kMaxPartSize → CalcPartInfo os ps = .ok (ps, -1)) := by
  constructor
  · intro hps
    subst hps
    unfold CalcPartInfo
    rw [if_neg (by simp), if_neg (by simp),
      if_neg (fun hc => absurd hos (not_lt.mpr hc.1)), if_pos ⟨hos, rfl⟩]
  · intro hmin hmax
    have hpos : 0 < ps := Nat.lt_of_lt_of_le kMinPartSize_pos hmin
    unfold CalcPartInfo
    rw [if_neg (fun hc => absurd hc.2 (Nat.not_lt.mpr hmin)),
      if_neg (fun hc => absurd hc.2 (Nat.not_lt.mpr hmax)),
      if_neg (fun hc => absurd hos (not_lt.mpr hc.1)),
      if_neg (fun hc => absurd hc.2 (Nat.pos_iff_ne_zero.mp hpos)),
      if_pos hos]

/-- Witness for C6: unknown size with a 10 MiB part size succeeds. -/
theorem C6_witness : CalcPartInfo (-1) (10 * 1024 * 1024) = .ok (10 * 1024 * 1024, -1) :=
  (C6_unknown_object_size (-1) (10 * 1024 * 1024) (by decide)).2 (by decide) (by decide)

/-! ## Claim C7 -/

/-- **C7.**  With a known in-range object size and a validated caller
part size, a part count `⌈object_size / min(part_size, object_size)⌉`
above `kMaxMultipartCount` is rejected with `TooManyParts`; and no
successful call of `CalcPartInfo` (any arguments) ever returns a part
count above `kMaxMultipartCount`. -/
theorem C7_too_many_parts (os : Int) (ps : Nat) :
    (0 ≤ os → os ≤ kMaxObjectSize → kMinPartSize ≤ ps → ps ≤ kMaxPartSize →
      kMaxMultipartCount < cdiv os.toNat (min ps os.toNat) →
      CalcPartInfo os ps = .error .TooManyParts) ∧
    (∀ r, CalcPartInfo os ps = .ok r → r.2 ≤ (kMaxMultipartCount : Int)) := by
  constructor
  · intro h0 h1 hmin hmax hcnt
    have hpos : 0 < ps := Nat.lt_of_lt_of_le kMinPartSize_pos hmin
    unfold CalcPartInfo
    rw [if_neg (fun hc => absurd hc.2 (Nat.not_lt.mpr hmin)),
      if_neg (fun hc => absurd hc.2 (Nat.not_lt.mpr hmax)),
      if_neg (fun hc => absurd hc.2 (not_lt.mpr h1)),
      if_neg (fun hc => absurd hc.1 (not_lt.mpr h0)),
      if_neg (not_lt.mpr h0)]
    dsimp only
    rw [if_neg (Nat.pos_iff_ne_zero.mp hpos)]
    have hmin' : (if os.toNat < ps then os.toNat else ps) = min ps os.toNat := by
      rcases Nat.lt_or_ge os.toNat ps with hc | hc
      · rw [if_pos hc, Nat.min_eq_right hc.le]
      · rw [if_neg (Nat.not_lt.mpr hc), Nat.min_eq_left hc]
    rw [hmin']
    have hpos' : 0 < min ps os.toNat := by
      rcases Nat.eq_zero_or_pos (min ps os.toNat) with hz | hp
      · exfalso
        have hn0 : os.toNat = 0 := by omega
        rw [hz, hn0] at hcnt
        exact absurd hcnt (by decide)
      · exact hp
    rw [if_pos hpos', if_pos hcnt]
  · intro r h
    obtain ⟨p, pc⟩ := r
    unfold CalcPartInfo at h
    by_cases hc1 : 0 < ps ∧ ps < kMinPartSize
    · rw [if_pos hc1] at h; exact Except.noConfusion h
    rw [if_neg hc1] at h
    by_cases hc2 : 0 < ps ∧ kMaxPartSize < ps
    · rw [if_pos hc2] at h; exact Except.noConfusion h
    rw [if_neg hc2] at h
    by_cases hc3 : 0 ≤ os ∧ kMaxObjectSize < os
    · rw [if_pos hc3] at h; exact Except.noConfusion h
    rw [if_neg hc3] at h
    by_cases hc4 : os < 0 ∧ ps = 0
    · rw [if_pos hc4] at h; exact Except.noConfusion h
    rw [if_neg hc4] at h
    by_cases hc5 : os < 0
    · rw [if_pos hc5] at h
      injection h with h1
      injection h1 with hp hpc
      rw [← hpc]
      show (-1 : Int) ≤ (kMaxMultipartCount : Int)
      decide
    · rw [if_neg hc5] at h
      dsimp only at h
      have hle : (if os.toNat < (if ps = 0
            then cdiv (cdiv os.toNat kMaxMultipartCount) kMinPartSize * kMinPartSize else ps)
          then os.toNat
          else (if ps = 0
            then cdiv (cdiv os.toNat kMaxMultipartCount) kMinPartSize * kMinPartSize else ps)) ≤
          os.toNat := by
        split <;> (split <;> omega)
      have hzero : (if os.toNat < (if ps = 0
            then cdiv (cdiv os.toNat kMaxMultipartCount) kMinPartSize * kMinPartSize else ps)
          then os.toNat
          else (if ps = 0
            then cdiv (cdiv os.toNat kMaxMultipartCount) kMinPartSize * kMinPartSize else ps)) = 0 →
          os.toNat = 0 := by
        intro hz
        by_cases hp0 : ps = 0
        · rw [if_pos hp0] at hz
          rcases Nat.lt_or_ge os.toNat
              (cdiv (cdiv os.toNat kMaxMultipartCount) kMinPartSize * kMinPartSize) with hc | hc
          · rw [if_pos hc] at hz; exact hz
          · rw [if_neg (Nat.not_lt.mpr hc)] at hz
            have h1 : cdiv (cdiv os.toNat kMaxMultipartCount) kMinPartSize = 0 := by
              rcases Nat.mul_eq_zero.mp hz with hx | hx
              · exact hx
              · exact absurd hx (Nat.pos_iff_ne_zero.mp kMinPartSize_pos)
            have h2 : cdiv os.toNat kMaxMultipartCount = 0 :=
              (cdiv_eq_zero_iff kMinPartSize_pos _).mp h1
            exact (cdiv_eq_zero_iff kMaxMultipartCount_pos _).mp h2
        · rw [if_neg hp0] at hz
          rcases Nat.lt_or_ge os.toNat ps with hc | hc
          · rw [if_pos hc] at hz; exact hz
          · rw [if_neg (Nat.not_lt.mpr hc)] at hz
            exact absurd hz hp0
      exact (plan_tail _ _ _ _ hle hzero h).2.1

/-- Witness for C7: a 5 TiB object with 5 MiB parts needs 2^20 parts and
is rejected. -/
theorem C7_witness :
    CalcPartInfo (5 * 1024 * 1024 * 1024 * 1024) (5 * 1024 * 1024) = .error .TooManyParts :=
  (C7_too_many_parts (5 * 1024 * 1024 * 1024 * 1024) (5 * 1024 * 1024)).1
    (by decide) (by decide) (by decide) (by decide) (by decide)

/-! ## Claim C10 -/

/-- **C10.**  Every successful `CalcPartInfo` call with a known
(non-negative) object size returns a covering plan:
`1 ≤ part_count ≤ kMaxMultipartCount`; when the returned `part_size` is
positive it satisfies `part_size ≤ object_size` (an oversize caller value
is silently clamped down) and
`part_size * (part_count - 1) < object_size ≤ part_size * part_count`;
and `part_size = 0` happens only for `object_size = 0` with
`part_count = 1`. -/
theorem C10_success_covers_object (os : Int) (ps_in p : Nat) (pc : Int)
    (h0 : 0 ≤ os) (h : CalcPartInfo os ps_in = .ok (p, pc)) :
    1 ≤ pc ∧ pc ≤ (kMaxMultipartCount : Int) ∧
    (0 < p → (p : Int) ≤ os ∧ (p : Int) * (pc - 1) < os ∧ os ≤ (p : Int) * pc) ∧
    (p = 0 → os = 0 ∧ pc = 1) := by
  unfold CalcPartInfo at h
  by_cases hc1 : 0 < ps_in ∧ ps_in < kMinPartSize
  · rw [if_pos hc1] at h; exact Except.noConfusion h
  rw [if_neg hc1] at h
  by_cases hc2 : 0 < ps_in ∧ kMaxPartSize < ps_in
  · rw [if_pos hc2] at h; exact Except.noConfusion h
  rw [if_neg hc2] at h
  by_cases hc3 : 0 ≤ os ∧ kMaxObjectSize < os
  · rw [if_pos hc3] at h; exact Except.noConfusion h
  rw [if_neg hc3] at h
  rw [if_neg (fun hc : os < 0 ∧ ps_in = 0 => absurd hc.1 (not_lt.mpr h0)),
    if_neg (not_lt.mpr h0)] at h
  dsimp only at h
  have hle : (if os.toNat < (if ps_in = 0
        then cdiv (cdiv os.toNat kMaxMultipartCount) kMinPartSize * kMinPartSize else ps_in)
      then os.toNat
      else (if ps_in = 0
        then cdiv (cdiv os.toNat kMaxMultipartCount) kMinPartSize * kMinPartSize else ps_in)) ≤
      os.toNat := by
    split <;> (split <;> omega)
  have hzero : (if os.toNat < (if ps_in = 0
        then cdiv (cdiv os.toNat kMaxMultipartCount) kMinPartSize * kMinPartSize else ps_in)
      then os.toNat
      else (if ps_in = 0
        then cdiv (cdiv os.toNat kMaxMultipartCount) kMinPartSize * kMinPartSize else ps_in)) = 0 →
      os.toNat = 0 := by
    intro hz
    by_cases hp0 : ps_in = 0
    · rw [if_pos hp0] at hz
      rcases Nat.lt_or_ge os.toNat
          (cdiv (cdiv os.toNat kMaxMultipartCount) kMinPartSize * kMinPartSize) with hc | hc
      · rw [if_pos hc] at hz; exact hz
      · rw [if_neg (Nat.not_lt.mpr hc)] at hz
        have h1 : cdiv (cdiv os.toNat kMaxMultipartCount) kMinPartSize = 0 := by
          rcases Nat.mul_eq_zero.mp hz with hx | hx
          · exact hx
          · exact absurd hx (Nat.pos_iff_ne_zero.mp kMinPartSize_pos)
        have h2 : cdiv os.toNat kMaxMultipartCount = 0 :=
          (cdiv_eq_zero_iff kMinPartSize_pos _).mp h1
        exact (cdiv_eq_zero_iff kMaxMultipartCount_pos _).mp h2
    · rw [if_neg hp0] at hz
      rcases Nat.lt_or_ge os.toNat ps_in with hc | hc
      · rw [if_pos hc] at hz; exact hz
      · rw [if_neg (Nat.not_lt.mpr hc)] at hz
        exact absurd hz hp0
  have hmain := plan_tail _ _ _ _ hle hzero h
  rw [← Int.toNat_of_nonneg h0]
  exact hmain

/-- Witness for C10 at a 1 GiB object with planner-chosen part size. -/
theorem C10_witness :
    1 ≤ (205 : Int) ∧ (205 : Int) ≤ (kMaxMultipartCount : Int) ∧
    (0 < (5242880 : Nat) → ((5242880 : Nat) : Int) ≤ (1073741824 : Int) ∧
      ((5242880 : Nat) : Int) * ((205 : Int) - 1) < (1073741824 : Int) ∧
      (1073741824 : Int) ≤ ((5242880 : Nat) : Int) * (205 : Int)) ∧
    ((5242880 : Nat) = 0 → (1073741824 : Int) = 0 ∧ (205 : Int) = 1) :=
  C10_success_covers_object 1073741824 0 5242880 205 (by decide) rfl
